import Mathlib

/-!
Verification of the build-time binding-generation pipeline in `src/sys/build.rs`.

Strings of the Rust program are modelled as `List Char` (a faithful rendering of
Rust's byte/char sequences for the ASCII data handled here).  Fallible Rust code
(`unwrap`, `expect`) is modelled with `Option`: `none` is a pipeline abort.
-/

/-- Converts a Lean string literal to the `List Char` representation used throughout. -/
def str (s : String) : List Char := s.toList

/-- The literal marker separating hand-authored from generated content
(`GENERATED_CODE_MARKER` in `build.rs`). -/
def GENERATED_CODE_MARKER : List Char := str "\n\n/// Generated Code\n\n"

/-- Rust `str::find` for a substring pattern: the least index at which `pat`
occurs in the remaining input, `none` when it does not occur. -/
def findSubstr (pat : List Char) : List Char → Option Nat
  | [] => if pat.isPrefixOf ([] : List Char) then some 0 else none
  | c :: rest =>
    if pat.isPrefixOf (c :: rest) then some 0
    else (findSubstr pat rest).map (· + 1)

/-- `pat` occurs in `s` starting at index `i`. -/
def occursAt (pat s : List Char) (i : Nat) : Prop := pat <+: s.drop i

/-- `content.drain(content.find(GENERATED_CODE_MARKER).unwrap_or(content.len())..)`:
keep everything strictly before the first occurrence of the marker
(the whole content when the marker does not occur). -/
def truncate_at_marker (content : List Char) : List Char :=
  content.take ((findSubstr GENERATED_CODE_MARKER content).getD content.length)

/-- Number of indices of `s` at which `pat` occurs (used to count occurrences of
the `return` keyword in generated wrapper text). -/
def countOcc (pat : List Char) : List Char → Nat
  | [] => if pat = [] then 1 else 0
  | c :: rest => (if pat.isPrefixOf (c :: rest) then 1 else 0) + countOcc pat rest

/-- The kinds of libclang entities this pipeline distinguishes. -/
inductive EntityKind where
  | FunctionDecl
  | ParmDecl
  | StructDecl
  | TypedefDecl
  | VarDecl
  | OtherKind
deriving DecidableEq

/-- Model of a `clang::Entity` as consumed by `build.rs`: kind, optional name,
optional type display name, optional result-type display name, optional presumed
source-location path, and child entities.  `Option` fields model the `Option`
returns of the clang API, on which the source calls `unwrap`. -/
inductive Entity where
  | mk : EntityKind → Option (List Char) → Option (List Char) → Option (List Char) →
      Option (List Char) → List Entity → Entity

def Entity.get_kind : Entity → EntityKind
  | .mk k _ _ _ _ _ => k

def Entity.get_name : Entity → Option (List Char)
  | .mk _ n _ _ _ _ => n

def Entity.get_type : Entity → Option (List Char)
  | .mk _ _ t _ _ _ => t

def Entity.get_result_type : Entity → Option (List Char)
  | .mk _ _ _ r _ _ => r

def Entity.get_presumed_location : Entity → Option (List Char)
  | .mk _ _ _ _ l _ => l

def Entity.get_children : Entity → List Entity
  | .mk _ _ _ _ _ c => c

/-- The parameter-extraction pass of `create_wrapper_function`: for every
`ParmDecl` child, `(format!("{} {}", type, name), name)`; the source calls
`unwrap` on the child's name and type, modelled as `none` (abort). -/
def extract_parameters : List Entity → Option (List (List Char × List Char))
  | [] => some []
  | c :: rest =>
    if c.get_kind = EntityKind.ParmDecl then
      match c.get_name with
      | none => none
      | some param_name =>
        match c.get_type with
        | none => none
        | some ty =>
          (extract_parameters rest).map fun l => (ty ++ str " " ++ param_name, param_name) :: l
    else extract_parameters rest

/-- One step of the fold in `create_wrapper_function`: push `", "` onto both
accumulators when the formal accumulator is nonempty, then push the formal and
actual argument. -/
def fold_step (acc p : List Char × List Char) : List Char × List Char :=
  if acc.1 = [] then (acc.1 ++ p.1, acc.2 ++ p.2)
  else (acc.1 ++ str ", " ++ p.1, acc.2 ++ str ", " ++ p.2)

/-- The fold in `create_wrapper_function` joining formal and actual argument
lists. -/
def fold_arguments (pairs : List (List Char × List Char)) : List Char × List Char :=
  pairs.foldl fold_step ([], [])

/-- `create_wrapper_function` from `build.rs`:
`format!("{} wrapped_{}({}) \x7b\x7b {}{1}({}); \x7d\x7d\n", return_type, name,
formal_arguments, return_keyword, actual_arguments)`. -/
def create_wrapper_function (entity : Entity) : Option (List Char) := do
  let pairs ← extract_parameters entity.get_children
  let formal_arguments := (fold_arguments pairs).1
  let actual_arguments := (fold_arguments pairs).2
  let return_type ← entity.get_result_type
  let function_name ← entity.get_name
  some (return_type ++ str " wrapped_" ++ function_name ++ str "(" ++ formal_arguments ++
    str ") \x7b " ++ (if return_type = str "void" then [] else str "return ") ++
    function_name ++ str "(" ++ actual_arguments ++ str "); \x7d\n")

/-- `is_not_in_include_directories` from `build.rs`: true iff every explicit
include directory either is longer than the entity's presumed location path or
is not a byte-wise prefix of it.  The source calls `unwrap` on the location,
modelled as `none`. -/
def is_not_in_include_directories (include_directories : List (List Char)) (entity : Entity) :
    Option Bool :=
  entity.get_presumed_location.map fun location =>
    include_directories.all fun dir =>
      decide (dir.length > location.length) || decide (location.take dir.length ≠ dir)

/-- The top-level-entity loop of `write_wrapper_function`: out-of-scope entities
are logged (collected into the second component) and skipped; in-scope
`FunctionDecl` entities contribute wrapper text. -/
def collect_wrapper_code (include_directories : List (List Char)) :
    List Entity → Option (List Char × List Entity)
  | [] => some ([], [])
  | e :: rest => do
    let not_in ← is_not_in_include_directories include_directories e
    if not_in then
      let (code, ignored) ← collect_wrapper_code include_directories rest
      some (code, e :: ignored)
    else if e.get_kind = EntityKind.FunctionDecl then
      let w ← create_wrapper_function e
      let (code, ignored) ← collect_wrapper_code include_directories rest
      some (w ++ code, ignored)
    else
      collect_wrapper_code include_directories rest

/-- The clang argument list of `write_wrapper_function`: `-I` per explicit
include directory, then `-D` per definition, then `-I` per implicit include
directory. -/
def build_clang_arguments
    (include_directories definitions implicit_include_directories : List (List Char)) :
    List (List Char) :=
  include_directories.map (fun path => str "-I" ++ path) ++
    definitions.map (fun d => str "-D" ++ d) ++
    implicit_include_directories.map (fun path => str "-I" ++ path)

/-- The per-alternative-target rewrite of `write_wrapper_function`: truncate the
existing content at the first marker occurrence (keep everything when the marker
is absent) and append the generated code. -/
def write_alternative_content (code content : List Char) : List Char :=
  truncate_at_marker content ++ code

/-- An alternate propagation target: `readResult = none` models a failing
`File::open` or `read_to_string`; `writeOk = false` a failing `fs::write`. -/
structure AltTarget where
  readResult : Option (List Char)
  writeOk : Bool

/-- Result of processing one alternate target: skipped (an I/O error was
reported and the loop continued) or rewritten with new content. -/
inductive AltOutcome where
  | skipped
  | written : List Char → AltOutcome

/-- One iteration of the alternate-target loop in `write_wrapper_function`. -/
def process_alternative (code : List Char) (t : AltTarget) : AltOutcome :=
  match t.readResult with
  | none => AltOutcome.skipped
  | some content =>
    if t.writeOk then AltOutcome.written (write_alternative_content code content)
    else AltOutcome.skipped

/-- `write_wrapper_function` from `build.rs`, with its subprocess inputs
(include directories, definitions from `get_compile_options`; parsed top-level
entities) passed as parameters: appends the generated code to the entry file,
patches every alternate target, and returns the clang argument list. -/
def write_wrapper_function (implicit_include_directories include_directories definitions :
    List (List Char)) (entities : List Entity) (entry_content : List Char)
    (targets : List AltTarget) : Option (List Char × List AltOutcome × List (List Char)) := do
  let clang_arguments :=
    build_clang_arguments include_directories definitions implicit_include_directories
  let (wrappers, _ignored) ← collect_wrapper_code include_directories entities
  let code := GENERATED_CODE_MARKER ++ wrappers
  some (entry_content ++ code, targets.map (process_alternative code), clang_arguments)

/-- The bindgen builder state accumulated by `generate_rust_binding`. -/
structure BindgenBuilder where
  header_path : Option (List Char)
  core_flag : Bool
  ctypes : Option (List Char)
  detect_flag : Bool
  clang_args_acc : List (List Char)
  allowed_functions : List (List Char)

def BindgenBuilder.empty : BindgenBuilder := ⟨none, false, none, false, [], []⟩

def BindgenBuilder.header (b : BindgenBuilder) (p : List Char) : BindgenBuilder :=
  { b with header_path := some p }

def BindgenBuilder.use_core (b : BindgenBuilder) : BindgenBuilder :=
  { b with core_flag := true }

def BindgenBuilder.with_ctypes (b : BindgenBuilder) (p : List Char) : BindgenBuilder :=
  { b with ctypes := some p }

def BindgenBuilder.detect_include_paths (b : BindgenBuilder) (v : Bool) : BindgenBuilder :=
  { b with detect_flag := v }

def BindgenBuilder.clang_args (b : BindgenBuilder) (args : List (List Char)) : BindgenBuilder :=
  { b with clang_args_acc := b.clang_args_acc ++ args }

def BindgenBuilder.clang_arg (b : BindgenBuilder) (arg : List Char) : BindgenBuilder :=
  { b with clang_args_acc := b.clang_args_acc ++ [arg] }

def BindgenBuilder.whitelist_function (b : BindgenBuilder) (pat : List Char) : BindgenBuilder :=
  { b with allowed_functions := b.allowed_functions ++ [pat] }

/-- `generate_rust_binding` from `build.rs`, modelled as the bindgen builder
configuration it assembles (the source then calls `.generate()`). -/
def generate_rust_binding (target_triple : List Char)
    (implicit_include_directories : List (List Char)) (entry_path : List Char)
    (clang_arguments : List (List Char)) : BindgenBuilder :=
  ((((((BindgenBuilder.empty.header entry_path).use_core.with_ctypes
      (str "cty")).detect_include_paths true).clang_args
      clang_arguments).clang_args
      (implicit_include_directories.map fun path => str "-I" ++ path)).clang_arg
      (str "--target=" ++ target_triple)).whitelist_function (str "wrapped_.*")

/-- `create_entry_point_file_to_out_dir` from `build.rs`, as the initial entry
content it writes.  `custom_entry = none`: the override environment variable is
unset; `some none`: set but the file is unreadable; `some (some s)`: set and
readable with content `s`.  `default_entry` is the read of the built-in
`cmake_pico/entry.c`. -/
def create_entry_point_content (custom_entry : Option (Option (List Char)))
    (default_entry : Option (List Char)) : Option (List Char) :=
  match custom_entry with
  | some (some s) => some (truncate_at_marker s)
  | some none => none
  | none => default_entry

/-- Rust `str::trim` on one line of compiler diagnostics. -/
def trimChars (s : List Char) : List Char :=
  ((s.dropWhile Char.isWhitespace).reverse.dropWhile Char.isWhitespace).reverse

/-- The diagnostic line introducing gcc's implicit search-path listing. -/
def include_search_header : List Char := str "#include <...> search starts here:"

/-- The first loop of `get_implicit_include_directories`: drop diagnostic lines
up to and including the first whose trimmed text is the search-path header. -/
def scan_to_header : List (List Char) → List (List Char)
  | [] => []
  | l :: rest => if trimChars l = include_search_header then rest else scan_to_header rest

/-- The second loop of `get_implicit_include_directories`: collect trimmed lines
naming existing paths, stopping at the first that does not exist. -/
def collect_existing (pathExists : List Char → Bool) : List (List Char) → List (List Char)
  | [] => []
  | l :: rest =>
    if pathExists (trimChars l) then trimChars l :: collect_existing pathExists rest else []

/-- `get_implicit_include_directories` from `build.rs`, over the compiler's
captured diagnostic stream and a filesystem-existence oracle. -/
def get_implicit_include_directories (pathExists : List Char → Bool)
    (gcc_stderr : List Char) : List (List Char) :=
  collect_existing pathExists (scan_to_header (gcc_stderr.splitOn '\n'))

/-- The compiler-command selection of `get_implicit_include_directories`. -/
def gcc_command_for_target (target_triple : List Char) : List Char :=
  if target_triple = str "thumbv6m-none-eabi" then str "arm-none-eabi-gcc" else str "gcc"

/-- Comma-separated join, written from the specification's
`<t1 p1, ..., tn pn>` notation. -/
def spec_comma_join : List (List Char) → List Char
  | [] => []
  | [s] => s
  | s :: rest => s ++ str ", " ++ spec_comma_join rest

/-- Join with a leading `", "` before every element (helper for relating the
source fold to `spec_comma_join`). -/
def comma_pre_join : List (List Char) → List Char
  | [] => []
  | s :: rest => str ", " ++ s ++ comma_pre_join rest

/-- Wrapper text as the specification words it:
`<return-type> wrapped_<name>(<t1 p1, ..., tn pn>) \x7b <return-if-nonvoid>
<name>(p1, ..., pn); \x7d` followed by a newline. -/
def spec_wrapper_text (return_type name : List Char)
    (params : List (List Char × List Char)) : List Char :=
  return_type ++ str " wrapped_" ++ name ++ str "(" ++
    spec_comma_join (params.map fun tp => tp.1 ++ str " " ++ tp.2) ++
    str ") \x7b " ++ (if return_type = str "void" then [] else str "return ") ++
    name ++ str "(" ++ spec_comma_join (params.map Prod.snd) ++ str "); \x7d\n"

/-- Fixture: a named, typed `int a` parameter declaration. -/
def param_a : Entity := .mk .ParmDecl (some (str "a")) (some (str "int")) none none []

/-- Fixture: a named, typed `int b` parameter declaration. -/
def param_b : Entity := .mk .ParmDecl (some (str "b")) (some (str "int")) none none []

/-- Fixture: a named parameter declaration with no type display (clang API
returning `None` from `get_type`). -/
def param_untyped : Entity := .mk .ParmDecl (some (str "a")) none none none []

/-- Fixture: the spec scenario `static inline int add(int a, int b)` declared
under an in-scope include directory. -/
def entity_add : Entity :=
  .mk .FunctionDecl (some (str "add")) none (some (str "int"))
    (some (str "/sdk/include/add.h")) [param_a, param_b]

/-- Fixture: the spec scenario `void reset(void)`. -/
def entity_reset : Entity :=
  .mk .FunctionDecl (some (str "reset")) none (some (str "void"))
    (some (str "/sdk/include/reset.h")) []

/-- Fixture: a function whose only parameter is named but lacks a type display. -/
def entity_untyped : Entity :=
  .mk .FunctionDecl (some (str "f")) none (some (str "int"))
    (some (str "/sdk/include/f.h")) [param_untyped]

/-- Fixture: a system-header declaration outside every explicit include
directory. -/
def entity_sys : Entity :=
  .mk .FunctionDecl (some (str "printf")) none (some (str "int"))
    (some (str "/usr/include/stdio.h")) []

/-- Fixture: a captured gcc diagnostic stream for the toolchain probe. -/
def gcc_stderr_fixture : List Char :=
  str "ignoring nonexistent directory \"/x\"\n#include <...> search starts here:\n /usr/include\n /opt/bad\nEnd of search list."

/-- Fixture: a filesystem-existence oracle under which only `/usr/include`
exists. -/
def path_exists_fixture : List Char → Bool := fun s => decide (s = str "/usr/include")

theorem isPrefixOf_eq_true_iff {l₁ l₂ : List Char} : l₁.isPrefixOf l₂ = true ↔ l₁ <+: l₂ :=
  List.isPrefixOf_iff_prefix

theorem findSubstr_some (pat : List Char) :
    ∀ (s : List Char) (i : Nat), findSubstr pat s = some i →
      occursAt pat s i ∧ ∀ j, j < i → ¬ occursAt pat s j := by
  intro s
  induction s with
  | nil =>
    intro i h
    simp only [findSubstr] at h
    split at h
    · rename_i hp
      cases h
      refine ⟨?_, by omega⟩
      simpa [occursAt] using isPrefixOf_eq_true_iff.mp hp
    · exact absurd h (by simp)
  | cons c rest ih =>
    intro i h
    simp only [findSubstr] at h
    split at h
    · rename_i hp
      cases h
      refine ⟨?_, by omega⟩
      simpa [occursAt] using isPrefixOf_eq_true_iff.mp hp
    · rename_i hp
      rcases Option.map_eq_some'.mp h with ⟨j, hj, rfl⟩
      rcases ih j hj with ⟨h1, h2⟩
      constructor
      · simpa [occursAt] using h1
      · intro k hk
        match k with
        | 0 =>
          intro hocc
          exact hp (isPrefixOf_eq_true_iff.mpr (by simpa [occursAt] using hocc))
        | k + 1 =>
          intro hocc
          exact h2 k (by omega) (by simpa [occursAt] using hocc)

theorem findSubstr_none (pat : List Char) :
    ∀ (s : List Char), findSubstr pat s = none → ∀ j, ¬ occursAt pat s j := by
  intro s
  induction s with
  | nil =>
    intro h j hocc
    simp only [findSubstr] at h
    split at h
    · exact absurd h (by simp)
    · rename_i hp
      exact hp (isPrefixOf_eq_true_iff.mpr (by simpa [occursAt, List.drop_nil] using hocc))
  | cons c rest ih =>
    intro h j hocc
    simp only [findSubstr] at h
    split at h
    · exact absurd h (by simp)
    · rename_i hp
      have hrest : findSubstr pat rest = none := by
        cases hr : findSubstr pat rest with
        | none => rfl
        | some v => simp [hr] at h
      match j with
      | 0 => exact hp (isPrefixOf_eq_true_iff.mpr (by simpa [occursAt] using hocc))
      | j + 1 => exact ih hrest j (by simpa [occursAt] using hocc)

theorem findSubstr_of (pat : List Char) :
    ∀ (s : List Char) (i : Nat), occursAt pat s i → (∀ j, j < i → ¬ occursAt pat s j) →
      findSubstr pat s = some i := by
  intro s
  induction s with
  | nil =>
    intro i h1 h2
    have hpat : pat = [] := by
      simpa [occursAt, List.drop_nil, List.prefix_nil] using h1
    have hi : i = 0 := by
      by_contra hne
      exact h2 0 (by omega) (by simp [occursAt, hpat])
    subst hi
    simp [findSubstr, hpat, List.isPrefixOf]
  | cons c rest ih =>
    intro i h1 h2
    match i with
    | 0 =>
      have : pat.isPrefixOf (c :: rest) = true := by
        exact isPrefixOf_eq_true_iff.mpr (by simpa [occursAt] using h1)
      simp [findSubstr, this]
    | i + 1 =>
      have hp : ¬ pat.isPrefixOf (c :: rest) = true := by
        intro hc
        exact h2 0 (by omega) (by simpa [occursAt] using isPrefixOf_eq_true_iff.mp hc)
      have hrec : findSubstr pat rest = some i := by
        apply ih
        · simpa [occursAt] using h1
        · intro j hj hocc
          exact h2 (j + 1) (by omega) (by simpa [occursAt] using hocc)
      simp [findSubstr, hp, hrec]

theorem findSubstr_eq_none_of (pat s : List Char) (h : ∀ j, ¬ occursAt pat s j) :
    findSubstr pat s = none := by
  cases hf : findSubstr pat s with
  | none => rfl
  | some i => exact absurd (findSubstr_some pat s i hf).1 (h i)

theorem marker_ne_nil : GENERATED_CODE_MARKER ≠ [] := by decide

theorem isPre_of_append_of_le {pat a b : List Char} (h : pat <+: a ++ b)
    (hlen : pat.length ≤ a.length) : pat <+: a := by
  have hp := List.prefix_iff_eq_take.mp h
  rw [ List.take_append_eq_append_take, Nat.sub_eq_zero_of_le hlen, List.take_zero,
    List.append_nil] at hp
  exact hp ▸ List.take_prefix _ _

theorem findSubstr_sandwich (P S : List Char)
    (h1 : findSubstr GENERATED_CODE_MARKER P = none)
    (h2 : ∀ d, d < GENERATED_CODE_MARKER.length → 0 < d →
      GENERATED_CODE_MARKER.drop d <+: GENERATED_CODE_MARKER →
      ¬ GENERATED_CODE_MARKER.take d <:+ P) :
    findSubstr GENERATED_CODE_MARKER (P ++ GENERATED_CODE_MARKER ++ S) = some P.length := by
  apply findSubstr_of
  · unfold occursAt
    rw [ List.append_assoc, List.drop_left]
    exact List.prefix_append _ _
  · intro j hj hocc
    unfold occursAt at hocc
    rw [ List.append_assoc, List.drop_append_eq_append_drop,
      Nat.sub_eq_zero_of_le (le_of_lt hj), List.drop_zero] at hocc
    have hqlen : (P.drop j).length = P.length - j := by simp
    by_cases hcase : GENERATED_CODE_MARKER.length ≤ (P.drop j).length
    · have hpre : GENERATED_CODE_MARKER <+: P.drop j := isPre_of_append_of_le hocc hcase
      exact findSubstr_none _ _ h1 j hpre
    · push_neg at hcase
      have hqpos : 0 < (P.drop j).length := by omega
      have htake : GENERATED_CODE_MARKER.take (P.drop j).length = P.drop j := by
        have hM := List.prefix_iff_eq_take.mp hocc
        calc GENERATED_CODE_MARKER.take (P.drop j).length
            = (((P.drop j) ++ (GENERATED_CODE_MARKER ++ S)).take
                GENERATED_CODE_MARKER.length).take (P.drop j).length := by rw [← hM]
          _ = ((P.drop j) ++ (GENERATED_CODE_MARKER ++ S)).take (P.drop j).length := by
              rw [ List.take_take]
              congr 1
              omega
          _ = P.drop j := List.take_left _ _
      have hsplit : GENERATED_CODE_MARKER.take (P.drop j).length ++
          GENERATED_CODE_MARKER.drop (P.drop j).length = GENERATED_CODE_MARKER :=
        List.take_append_drop _ _
      rw [htake] at hsplit
      have hstep : P.drop j ++ GENERATED_CODE_MARKER.drop (P.drop j).length <+:
          P.drop j ++ (GENERATED_CODE_MARKER ++ S) := by
        rw [hsplit]
        exact hocc
      have h5 : GENERATED_CODE_MARKER.drop (P.drop j).length <+:
          GENERATED_CODE_MARKER ++ S :=
        ( List.prefix_append_right_inj (P.drop j)).mp hstep
      have hborder : GENERATED_CODE_MARKER.drop (P.drop j).length <+: GENERATED_CODE_MARKER :=
        isPre_of_append_of_le h5 (by simp)
      refine h2 (P.drop j).length hcase hqpos hborder ?_
      rw [htake]
      exact List.drop_suffix j P

theorem truncate_eq_take (c : List Char) (n : Nat)
    (h : findSubstr GENERATED_CODE_MARKER c = some n) : truncate_at_marker c = c.take n := by
  simp [truncate_at_marker, h]

theorem truncate_eq_self (c : List Char)
    (h : findSubstr GENERATED_CODE_MARKER c = none) : truncate_at_marker c = c := by
  simp [truncate_at_marker, h]

theorem truncate_marker_free (c : List Char) :
    findSubstr GENERATED_CODE_MARKER (truncate_at_marker c) = none := by
  cases hf : findSubstr GENERATED_CODE_MARKER c with
  | none => rw [truncate_eq_self c hf]; exact hf
  | some n =>
    rw [truncate_eq_take c n hf]
    apply findSubstr_eq_none_of
    intro j hocc
    unfold occursAt at hocc
    rw [ List.drop_take] at hocc
    have hlen := List.IsPrefix.length_le hocc
    have hMpos : 0 < GENERATED_CODE_MARKER.length :=
      List.length_pos.mpr marker_ne_nil
    have hjn : j < n := by
      have := List.length_take_le (n - j) (c.drop j)
      omega
    have hocc' : occursAt GENERATED_CODE_MARKER c j :=
      List.IsPrefix.trans hocc ( List.take_prefix _ _)
    exact (findSubstr_some _ _ _ hf).2 j hjn hocc'

theorem spec_comma_join_cons (rest : List (List Char)) :
    ∀ x, spec_comma_join (x :: rest) = x ++ comma_pre_join rest := by
  induction rest with
  | nil => intro x; simp [spec_comma_join, comma_pre_join]
  | cons y r ih =>
    intro x
    simp only [spec_comma_join, comma_pre_join, ih y, List.append_assoc]

theorem fold_step_go (pairs : List (List Char × List Char)) :
    ∀ F A : List Char, F ≠ [] →
      pairs.foldl fold_step (F, A) =
        (F ++ comma_pre_join (pairs.map Prod.fst), A ++ comma_pre_join (pairs.map Prod.snd)) := by
  induction pairs with
  | nil => intro F A _; simp [comma_pre_join]
  | cons p rest ih =>
    intro F A hF
    have hstep : fold_step (F, A) p = (F ++ str ", " ++ p.1, A ++ str ", " ++ p.2) := by
      simp [fold_step, hF]
    have hne : F ++ str ", " ++ p.1 ≠ [] := by
      simp [str, List.append_eq_nil]
    calc (p :: rest).foldl fold_step (F, A)
        = rest.foldl fold_step (F ++ str ", " ++ p.1, A ++ str ", " ++ p.2) := by
          simp [List.foldl_cons, hstep]
      _ = _ := by
          rw [ih _ _ hne]
          simp [comma_pre_join, List.append_assoc]

theorem fold_arguments_eq (pairs : List (List Char × List Char))
    (h : ∀ p ∈ pairs, p.1 ≠ []) :
    fold_arguments pairs =
      (spec_comma_join (pairs.map Prod.fst), spec_comma_join (pairs.map Prod.snd)) := by
  cases pairs with
  | nil => simp [fold_arguments, spec_comma_join]
  | cons p rest =>
    have hne : p.1 ≠ [] := h p (by simp)
    have hstep : fold_step ([], []) p = (p.1, p.2) := by simp [fold_step]
    calc fold_arguments (p :: rest)
        = rest.foldl fold_step (p.1, p.2) := by
          simp [fold_arguments, List.foldl_cons, hstep]
      _ = (p.1 ++ comma_pre_join (rest.map Prod.fst),
           p.2 ++ comma_pre_join (rest.map Prod.snd)) := fold_step_go rest p.1 p.2 hne
      _ = _ := by
          simp only [List.map_cons]
          rw [spec_comma_join_cons (rest.map Prod.fst) p.1,
            spec_comma_join_cons (rest.map Prod.snd) p.2]

theorem extract_parameters_eq :
    ∀ (cs : List Entity) (params : List (List Char × List Char)),
      ((cs.filter fun c => decide (c.get_kind = EntityKind.ParmDecl)).map
        (fun c => (c.get_type, c.get_name)) = params.map fun tp => (some tp.1, some tp.2)) →
      extract_parameters cs = some (params.map fun tp => (tp.1 ++ str " " ++ tp.2, tp.2)) := by
  intro cs
  induction cs with
  | nil =>
    intro params h
    simp only [List.filter_nil, List.map_nil] at h
    have : params = [] := by
      cases params with
      | nil => rfl
      | cons tp r => simp at h
    subst this
    simp [extract_parameters]
  | cons c rest ih =>
    intro params h
    by_cases hk : c.get_kind = EntityKind.ParmDecl
    · rw [List.filter_cons_of_pos (by simp [hk])] at h
      cases params with
      | nil => simp at h
      | cons tp params' =>
        simp only [List.map_cons, List.cons.injEq, Prod.mk.injEq] at h
        obtain ⟨⟨hty, hname⟩, htail⟩ := h
        simp only [extract_parameters, if_pos hk, hname, hty]
        rw [ih params' htail]
        simp
    · rw [List.filter_cons_of_neg (by simp [hk])] at h
      simp only [extract_parameters, if_neg hk]
      exact ih params h

theorem create_wrapper_function_eq (e : Entity) (rt nm : List Char)
    (params : List (List Char × List Char))
    (hrt : e.get_result_type = some rt) (hnm : e.get_name = some nm)
    (hp : (e.get_children.filter fun c => decide (c.get_kind = EntityKind.ParmDecl)).map
      (fun c => (c.get_type, c.get_name)) = params.map fun tp => (some tp.1, some tp.2)) :
    create_wrapper_function e = some (spec_wrapper_text rt nm params) := by
  have hex := extract_parameters_eq e.get_children params hp
  have hfold := fold_arguments_eq (params.map fun tp => (tp.1 ++ str " " ++ tp.2, tp.2)) (by
    intro p hmem
    simp only [List.mem_map] at hmem
    obtain ⟨tp, _, rfl⟩ := hmem
    simp [str, List.append_eq_nil])
  simp only [List.map_map] at hfold
  simp only [create_wrapper_function, hex, hrt, hnm, Option.bind_eq_bind, Option.some_bind,
    hfold, spec_wrapper_text]
  congr 1

theorem countOcc_nil_of_ne (pat : List Char) (h : pat ≠ []) : countOcc pat [] = 0 := by
  simp [countOcc, h]

theorem take_eq_of_isPre {pat X : List Char} (h : pat <+: X) {d : Nat} (hd : d ≤ pat.length) :
    pat.take d = X.take d := by
  have hp := List.prefix_iff_eq_take.mp h
  calc pat.take d = (X.take pat.length).take d := by rw [← hp]
    _ = X.take d := by
        rw [ List.take_take]
        congr 1
        omega

theorem countOcc_append (pat : List Char) (hpat : pat ≠ []) :
    ∀ (a b : List Char),
      (∀ d, d < pat.length → 0 < d → ¬ (pat.take d <:+ a ∧ pat.drop d <+: b)) →
      countOcc pat (a ++ b) = countOcc pat a + countOcc pat b := by
  intro a
  induction a with
  | nil =>
    intro b _
    rw [List.nil_append, countOcc_nil_of_ne pat hpat]
    omega
  | cons c a' ih =>
    intro b h
    have h' : ∀ d, d < pat.length → 0 < d → ¬ (pat.take d <:+ a' ∧ pat.drop d <+: b) := by
      intro d hd hd0 ⟨hsuf, hpre⟩
      exact h d hd hd0 ⟨List.IsSuffix.trans hsuf (List.suffix_cons c a'), hpre⟩
    have hiff : pat <+: (c :: a') ++ b ↔ pat <+: (c :: a') := by
      constructor
      · intro hp
        by_cases hlen : pat.length ≤ (c :: a').length
        · exact isPre_of_append_of_le hp hlen
        · push_neg at hlen
          exfalso
          have hd : (c :: a').length < pat.length := hlen
          have htk : pat.take (c :: a').length = c :: a' := by
            rw [take_eq_of_isPre hp (le_of_lt hd), List.take_left]
          refine h (c :: a').length hd (by simp) ⟨by rw [htk], ?_⟩
          have hsplit : pat.take (c :: a').length ++ pat.drop (c :: a').length = pat :=
            List.take_append_drop _ _
          rw [htk] at hsplit
          have : (c :: a') ++ pat.drop (c :: a').length <+: (c :: a') ++ b := by
            rw [hsplit]; exact hp
          exact ( List.prefix_append_right_inj (c :: a')).mp this
      · intro hp
        exact List.IsPrefix.trans hp ( List.prefix_append _ _)
    have hbool : pat.isPrefixOf ((c :: a') ++ b) = pat.isPrefixOf (c :: a') := by
      by_cases hp2 : pat <+: (c :: a')
      · have b1 : pat.isPrefixOf ((c :: a') ++ b) = true :=
          isPrefixOf_eq_true_iff.mpr (hiff.mpr hp2)
        have b2 : pat.isPrefixOf (c :: a') = true := isPrefixOf_eq_true_iff.mpr hp2
        rw [b1, b2]
      · have b1 : pat.isPrefixOf ((c :: a') ++ b) = false :=
          Bool.eq_false_iff.mpr (fun hx => hp2 (hiff.mp (isPrefixOf_eq_true_iff.mp hx)))
        have b2 : pat.isPrefixOf (c :: a') = false :=
          Bool.eq_false_iff.mpr (fun hx => hp2 (isPrefixOf_eq_true_iff.mp hx))
        rw [b1, b2]
    calc countOcc pat ((c :: a') ++ b)
        = (if pat.isPrefixOf ((c :: a') ++ b) then 1 else 0) + countOcc pat (a' ++ b) := by
          rw [List.cons_append]; rfl
      _ = (if pat.isPrefixOf (c :: a') then 1 else 0) + (countOcc pat a' + countOcc pat b) := by
          rw [hbool, ih b h']
      _ = countOcc pat (c :: a') + countOcc pat b := by
          simp [countOcc]
          omega

theorem isPre_head_eq {l b : List Char} {c : Char} (hne : l ≠ []) (h : l <+: b)
    (hb : b.head? = some c) : l.head? = some c := by
  rcases h with ⟨t, rfl⟩
  cases l with
  | nil => exact absurd rfl hne
  | cons x xs => simpa using hb

theorem no_straddle_of_head (pat x b : List Char) (c : Char)
    (hb : b.head? = some c)
    (hc : ∀ d, d < pat.length → 0 < d → pat[d]? ≠ some c) :
    ∀ d, d < pat.length → 0 < d → ¬ (pat.take d <:+ x ∧ pat.drop d <+: b) := by
  intro d hd hd0 ⟨_, hpre⟩
  have hne : pat.drop d ≠ [] := by
    intro hnil
    have := congrArg List.length hnil
    simp at this
    omega
  have hh : (pat.drop d).head? = some c := isPre_head_eq hne hpre hb
  rw [List.head?_drop] at hh
  exact hc d hd hd0 hh

theorem no_straddle_of_take (pat lit b : List Char)
    (h : ∀ d, d < pat.length → 0 < d → ¬ pat.take d <:+ lit) :
    ∀ d, d < pat.length → 0 < d → ¬ (pat.take d <:+ lit ∧ pat.drop d <+: b) := by
  intro d hd hd0 hconj
  exact h d hd hd0 hconj.1

theorem countOcc_ret_comma_join (l : List (List Char))
    (h : ∀ x ∈ l, countOcc (str "return") x = 0) :
    countOcc (str "return") (spec_comma_join l) = 0 := by
  induction l with
  | nil => decide
  | cons x rest ih =>
    cases rest with
    | nil => simpa [spec_comma_join] using h x (List.mem_cons_self x _)
    | cons y r =>
      have hx : countOcc (str "return") x = 0 := h x (List.mem_cons_self x _)
      have hrest : countOcc (str "return") (spec_comma_join (y :: r)) = 0 := by
        apply ih
        intro z hz
        exact h z (List.mem_cons_of_mem x hz)
      have hJ0 : spec_comma_join (x :: y :: r) = x ++ str ", " ++ spec_comma_join (y :: r) := rfl
      rw [hJ0, List.append_assoc]
      rw [countOcc_append (str "return") (by decide) x (str ", " ++ spec_comma_join (y :: r))
        (no_straddle_of_head _ _ _ ',' rfl (by decide))]
      rw [hx]
      rw [countOcc_append (str "return") (by decide) (str ", ") (spec_comma_join (y :: r))
        (no_straddle_of_take _ _ _ (by decide))]
      rw [hrest]
      decide

theorem countOcc_ret_pair (t p : List Char) (ht : countOcc (str "return") t = 0)
    (hp : countOcc (str "return") p = 0) :
    countOcc (str "return") (t ++ str " " ++ p) = 0 := by
  rw [ List.append_assoc]
  rw [countOcc_append (str "return") (by decide) t (str " " ++ p)
    (no_straddle_of_head _ _ _ ' ' rfl (by decide))]
  rw [ht]
  rw [countOcc_append (str "return") (by decide) (str " ") p
    (no_straddle_of_take _ _ _ (by decide))]
  rw [hp]
  decide

theorem countOcc_ret_wrapper (rt nm F A : List Char)
    (h1 : countOcc (str "return") rt = 0) (h2 : countOcc (str "return") nm = 0)
    (hF : countOcc (str "return") F = 0) (hA : countOcc (str "return") A = 0) :
    countOcc (str "return")
      (rt ++ str " wrapped_" ++ nm ++ str "(" ++ F ++ str ") \x7b " ++
        (if rt = str "void" then [] else str "return ") ++ nm ++ str "(" ++ A ++
        str "); \x7d\n")
      = if rt = str "void" then 0 else 1 := by
  have hcall : countOcc (str "return") (nm ++ (str "(" ++ (A ++ str "); \x7d\n"))) = 0 := by
    rw [countOcc_append (str "return") (by decide) nm (str "(" ++ (A ++ str "); \x7d\n"))
      (no_straddle_of_head _ _ _ '(' rfl (by decide))]
    rw [h2]
    rw [countOcc_append (str "return") (by decide) (str "(") (A ++ str "); \x7d\n")
      (no_straddle_of_take _ _ _ (by decide))]
    rw [countOcc_append (str "return") (by decide) A (str "); \x7d\n")
      (no_straddle_of_head _ _ _ ')' rfl (by decide))]
    rw [hA]
    decide
  have houter : ∀ X : List Char,
      countOcc (str "return")
        (rt ++ (str " wrapped_" ++ (nm ++ (str "(" ++ (F ++ (str ") \x7b " ++ X)))))) =
      countOcc (str "return") X := by
    intro X
    rw [countOcc_append (str "return") (by decide) rt
      (str " wrapped_" ++ (nm ++ (str "(" ++ (F ++ (str ") \x7b " ++ X)))))
      (no_straddle_of_head _ _ _ ' ' rfl (by decide))]
    rw [countOcc_append (str "return") (by decide) (str " wrapped_")
      (nm ++ (str "(" ++ (F ++ (str ") \x7b " ++ X))))
      (no_straddle_of_take _ _ _ (by decide))]
    rw [countOcc_append (str "return") (by decide) nm
      (str "(" ++ (F ++ (str ") \x7b " ++ X)))
      (no_straddle_of_head _ _ _ '(' rfl (by decide))]
    rw [countOcc_append (str "return") (by decide) (str "(")
      (F ++ (str ") \x7b " ++ X))
      (no_straddle_of_take _ _ _ (by decide))]
    rw [countOcc_append (str "return") (by decide) F (str ") \x7b " ++ X)
      (no_straddle_of_head _ _ _ ')' rfl (by decide))]
    rw [countOcc_append (str "return") (by decide) (str ") \x7b ") X
      (no_straddle_of_take _ _ _ (by decide))]
    rw [h1, h2, hF]
    have e1 : countOcc (str "return") (str " wrapped_") = 0 := by decide
    have e2 : countOcc (str "return") (str "(") = 0 := by decide
    have e3 : countOcc (str "return") (str ") \x7b ") = 0 := by decide
    rw [e1, e2, e3]
    omega
  by_cases hv : rt = str "void"
  · rw [if_pos hv, if_pos hv]
    simp only [List.append_assoc, List.nil_append]
    rw [houter (nm ++ (str "(" ++ (A ++ str "); \x7d\n")))]
    exact hcall
  · rw [if_neg hv, if_neg hv]
    simp only [List.append_assoc]
    rw [houter (str "return " ++ (nm ++ (str "(" ++ (A ++ str "); \x7d\n"))))]
    rw [countOcc_append (str "return") (by decide) (str "return ")
      (nm ++ (str "(" ++ (A ++ str "); \x7d\n")))
      (no_straddle_of_take _ _ _ (by decide))]
    rw [hcall]
    decide

/-- Claim C1: for every top-level in-scope function declaration with named
parameters `p1..pn` of type display names `t1..tn`, the synthesized wrapper
text is exactly `<return-type> wrapped_<name>(<t1 p1, ..., tn pn>)` followed by
a body forwarding every argument unchanged by name (with `return` present
exactly for non-void display names) and a trailing newline; when `n = 0` both
the parameter list and the call-argument list are empty. -/
theorem claim_C1_wrapper_text (e : Entity) (rt nm : List Char)
    (params : List (List Char × List Char))
    (hrt : e.get_result_type = some rt) (hnm : e.get_name = some nm)
    (hp : (e.get_children.filter fun c => decide (c.get_kind = EntityKind.ParmDecl)).map
      (fun c => (c.get_type, c.get_name)) = params.map fun tp => (some tp.1, some tp.2)) :
    create_wrapper_function e = some (spec_wrapper_text rt nm params) :=
  create_wrapper_function_eq e rt nm params hrt hnm hp

/-- Witness for C1 at the spec scenario `int add(int a, int b)`: the wrapper is
`int wrapped_add(int a, int b) ... return add(a, b); ...`. -/
theorem claim_C1_witness :
    create_wrapper_function entity_add =
      some (spec_wrapper_text (str "int") (str "add")
        [(str "int", str "a"), (str "int", str "b")]) ∧
    spec_wrapper_text (str "int") (str "add") [(str "int", str "a"), (str "int", str "b")] =
      str "int wrapped_add(int a, int b) \x7b return add(a, b); \x7d\n" :=
  ⟨claim_C1_wrapper_text entity_add (str "int") (str "add")
    [(str "int", str "a"), (str "int", str "b")] rfl rfl (by decide), by decide⟩

/-- Claim C3: the generated wrapper text contains the `return` keyword exactly
once when the declaration's return-type display name differs from the literal
string `void` (including typedefs that resolve to void but display otherwise),
and not at all when the display name is exactly `void` — provided the keyword
does not occur inside the declaration's own identifiers and type names. -/
theorem claim_C3_return_keyword (e : Entity) (rt nm : List Char)
    (params : List (List Char × List Char))
    (hrt : e.get_result_type = some rt) (hnm : e.get_name = some nm)
    (hp : (e.get_children.filter fun c => decide (c.get_kind = EntityKind.ParmDecl)).map
      (fun c => (c.get_type, c.get_name)) = params.map fun tp => (some tp.1, some tp.2))
    (h1 : countOcc (str "return") rt = 0) (h2 : countOcc (str "return") nm = 0)
    (h3 : ∀ tp ∈ params, countOcc (str "return") tp.1 = 0 ∧ countOcc (str "return") tp.2 = 0) :
    ∃ w, create_wrapper_function e = some w ∧
      countOcc (str "return") w = if rt = str "void" then 0 else 1 := by
  refine ⟨spec_wrapper_text rt nm params,
    create_wrapper_function_eq e rt nm params hrt hnm hp, ?_⟩
  have hF : countOcc (str "return")
      (spec_comma_join (params.map fun tp => tp.1 ++ str " " ++ tp.2)) = 0 := by
    apply countOcc_ret_comma_join
    intro x hx
    simp only [List.mem_map] at hx
    obtain ⟨tp, htp, rfl⟩ := hx
    exact countOcc_ret_pair _ _ (h3 tp htp).1 (h3 tp htp).2
  have hA : countOcc (str "return") (spec_comma_join (params.map Prod.snd)) = 0 := by
    apply countOcc_ret_comma_join
    intro x hx
    simp only [List.mem_map] at hx
    obtain ⟨tp, htp, rfl⟩ := hx
    exact (h3 tp htp).2
  unfold spec_wrapper_text
  exact countOcc_ret_wrapper rt nm _ _ h1 h2 hF hA

/-- Witness for C3 at `int add(int a, int b)` (non-void, one `return`) — the
hypotheses are discharged at this concrete declaration. -/
theorem claim_C3_witness :
    ∃ w, create_wrapper_function entity_add = some w ∧
      countOcc (str "return") w = if str "int" = str "void" then 0 else 1 :=
  claim_C3_return_keyword entity_add (str "int") (str "add")
    [(str "int", str "a"), (str "int", str "b")] rfl rfl (by decide) (by decide) (by decide)
    (by decide)

theorem dir_check_iff (d loc : List Char) :
    (decide (d.length > loc.length) || decide (loc.take d.length ≠ d)) = true ↔ ¬ d <+: loc := by
  simp only [Bool.or_eq_true, decide_eq_true_eq]
  constructor
  · rintro (hgt | hne) hpre
    · have := List.IsPrefix.length_le hpre
      omega
    · exact hne (( List.prefix_iff_eq_take.mp hpre).symm)
  · intro hnp
    by_cases hle : d.length ≤ loc.length
    · refine Or.inr ?_
      intro heq
      exact hnp (heq ▸ List.take_prefix d.length loc)
    · exact Or.inl (by omega)

theorem is_not_in_iff (dirs : List (List Char)) (e : Entity) (loc : List Char)
    (hloc : e.get_presumed_location = some loc) :
    (is_not_in_include_directories dirs e = some true ↔ ∀ d ∈ dirs, ¬ d <+: loc) ∧
    (is_not_in_include_directories dirs e = some false ↔ ∃ d ∈ dirs, d <+: loc) := by
  have hall : is_not_in_include_directories dirs e =
      some (dirs.all fun dir =>
        decide (dir.length > loc.length) || decide (loc.take dir.length ≠ dir)) := by
    simp [is_not_in_include_directories, hloc]
  constructor
  · rw [hall]
    simp only [Option.some.injEq]
    rw [List.all_eq_true]
    constructor
    · intro h d hd
      exact (dir_check_iff d loc).mp (h d hd)
    · intro h d hd
      exact (dir_check_iff d loc).mpr (h d hd)
  · rw [hall]
    simp only [Option.some.injEq]
    constructor
    · intro h
      by_contra hne
      push_neg at hne
      have htrue : (dirs.all fun dir =>
          decide (dir.length > loc.length) || decide (loc.take dir.length ≠ dir)) = true :=
        List.all_eq_true.mpr (fun d hd => (dir_check_iff d loc).mpr (hne d hd))
      rw [htrue] at h
      exact absurd h (by simp)
    · rintro ⟨d, hd, hpre⟩
      apply Bool.eq_false_iff.mpr
      intro hall2
      exact (dir_check_iff d loc).mp (List.all_eq_true.mp hall2 d hd) hpre

/-- Claim C2: a wrapper may be generated for a declaration only if its presumed
source-location path has one of the explicit include directories as a byte-wise
prefix (no normalization): the scope test reports in-scope exactly when such a
prefix exists, and a declaration whose location has no such prefix is logged as
ignored and contributes no wrapper text. -/
theorem claim_C2_scope_check (dirs : List (List Char)) (e : Entity) (rest : List Entity)
    (loc : List Char) (hloc : e.get_presumed_location = some loc) :
    (is_not_in_include_directories dirs e = some false ↔ ∃ d ∈ dirs, d <+: loc) ∧
    ((∀ d ∈ dirs, ¬ d <+: loc) → ∀ code ignored,
      collect_wrapper_code dirs rest = some (code, ignored) →
      collect_wrapper_code dirs (e :: rest) = some (code, e :: ignored)) := by
  obtain ⟨h1, h2⟩ := is_not_in_iff dirs e loc hloc
  refine ⟨h2, ?_⟩
  intro hout code ignored hrest
  have htrue : is_not_in_include_directories dirs e = some true := h1.mpr hout
  simp [collect_wrapper_code, htrue, hrest]

/-- Witness for C2 at a system-header declaration `/usr/include/stdio.h`
against the explicit include directory `/sdk/include`. -/
theorem claim_C2_witness :
    (is_not_in_include_directories [str "/sdk/include"] entity_sys = some false ↔
      ∃ d ∈ [str "/sdk/include"], d <+: str "/usr/include/stdio.h") ∧
    ((∀ d ∈ [str "/sdk/include"], ¬ d <+: str "/usr/include/stdio.h") → ∀ code ignored,
      collect_wrapper_code [str "/sdk/include"] [] = some (code, ignored) →
      collect_wrapper_code [str "/sdk/include"] [entity_sys] =
        some (code, entity_sys :: ignored)) :=
  claim_C2_scope_check [str "/sdk/include"] entity_sys [] (str "/usr/include/stdio.h") rfl

/-- Claim C4 (amended): one propagation pass on a content `P ++ marker ++ S`
or `P` — with `P` hand-authored, marker-free and not ending in a nonempty
partial copy of the marker that the following marker text completes — yields
exactly `P ++ marker ++ <new wrapper text>`, preserving `P` byte-for-byte. -/
theorem claim_C4_truncation (P S W : List Char)
    (h1 : findSubstr GENERATED_CODE_MARKER P = none)
    (h2 : ∀ d, d < GENERATED_CODE_MARKER.length → 0 < d →
      GENERATED_CODE_MARKER.drop d <+: GENERATED_CODE_MARKER →
      ¬ GENERATED_CODE_MARKER.take d <:+ P) :
    write_alternative_content (GENERATED_CODE_MARKER ++ W)
        (P ++ GENERATED_CODE_MARKER ++ S) = P ++ GENERATED_CODE_MARKER ++ W ∧
    write_alternative_content (GENERATED_CODE_MARKER ++ W) P =
      P ++ GENERATED_CODE_MARKER ++ W := by
  constructor
  · unfold write_alternative_content
    rw [truncate_eq_take _ P.length (findSubstr_sandwich P S h1 h2)]
    rw [ List.append_assoc, List.take_left, List.append_assoc]
  · unfold write_alternative_content
    rw [truncate_eq_self P h1, List.append_assoc]

/-- Counterexample to C4 as stated: the marker-free hand-authored prefix
`"\n\n/// Generated Code"` followed by the marker and a stale suffix is not
preserved, because the first marker occurrence starts at the head of the
prefix rather than at its end. -/
theorem claim_C4_counterexample :
    findSubstr GENERATED_CODE_MARKER (str "\n\n/// Generated Code") = none ∧
    write_alternative_content (GENERATED_CODE_MARKER ++ str "w")
        (str "\n\n/// Generated Code" ++ GENERATED_CODE_MARKER ++ str "s") ≠
      str "\n\n/// Generated Code" ++ GENERATED_CODE_MARKER ++ str "w" := by decide

/-- Witness for C4 at the prefix `"int x;\n"` with stale suffix `"old"`. -/
theorem claim_C4_witness :
    (findSubstr GENERATED_CODE_MARKER (str "int x;\n") = none) ∧
    (write_alternative_content (GENERATED_CODE_MARKER ++ str "w")
        (str "int x;\n" ++ GENERATED_CODE_MARKER ++ str "old") =
      str "int x;\n" ++ GENERATED_CODE_MARKER ++ str "w" ∧
    write_alternative_content (GENERATED_CODE_MARKER ++ str "w") (str "int x;\n") =
      str "int x;\n" ++ GENERATED_CODE_MARKER ++ str "w") :=
  ⟨by decide, claim_C4_truncation (str "int x;\n") (str "old") (str "w")
    (by decide) (by decide)⟩

/-- Claim C5 (amended): for a fixed generated wrapper text, the
marker-truncate-then-append transformation is idempotent on every file content
whose pre-marker prefix does not end in a nonempty partial copy of the marker
that the appended marker completes. -/
theorem claim_C5_idempotent (c W : List Char)
    (h : ∀ d, d < GENERATED_CODE_MARKER.length → 0 < d →
      GENERATED_CODE_MARKER.drop d <+: GENERATED_CODE_MARKER →
      ¬ GENERATED_CODE_MARKER.take d <:+ truncate_at_marker c) :
    write_alternative_content (GENERATED_CODE_MARKER ++ W)
        (write_alternative_content (GENERATED_CODE_MARKER ++ W) c) =
      write_alternative_content (GENERATED_CODE_MARKER ++ W) c := by
  have key : truncate_at_marker (truncate_at_marker c ++ (GENERATED_CODE_MARKER ++ W)) =
      truncate_at_marker c := by
    rw [← List.append_assoc]
    rw [truncate_eq_take _ (truncate_at_marker c).length
      (findSubstr_sandwich (truncate_at_marker c) W (truncate_marker_free c) h)]
    rw [ List.append_assoc, List.take_left]
  unfold write_alternative_content
  rw [key]

/-- Counterexample to C5 as stated: a file whose content is the marker missing
its final two newlines is not a fixed point after one pass — the second pass
truncates at an occurrence that straddles the old content and the appended
marker, so the results of one and two passes differ. -/
theorem claim_C5_counterexample :
    write_alternative_content (GENERATED_CODE_MARKER ++ str "w")
        (write_alternative_content (GENERATED_CODE_MARKER ++ str "w")
          (str "\n\n/// Generated Code")) ≠
      write_alternative_content (GENERATED_CODE_MARKER ++ str "w")
        (str "\n\n/// Generated Code") := by decide

/-- Witness for C5 at the content `"static int x;\n"`. -/
theorem claim_C5_witness :
    (∀ d, d < GENERATED_CODE_MARKER.length → 0 < d →
      GENERATED_CODE_MARKER.drop d <+: GENERATED_CODE_MARKER →
      ¬ GENERATED_CODE_MARKER.take d <:+ truncate_at_marker (str "static int x;\n")) ∧
    write_alternative_content (GENERATED_CODE_MARKER ++ str "w")
        (write_alternative_content (GENERATED_CODE_MARKER ++ str "w")
          (str "static int x;\n")) =
      write_alternative_content (GENERATED_CODE_MARKER ++ str "w") (str "static int x;\n") :=
  ⟨by decide, claim_C5_idempotent (str "static int x;\n") (str "w") (by decide)⟩

/-- Claim C6: the compile-argument list is, in order, `-I` per explicit include
directory, `-D` per definition, `-I` per implicit include directory; the
introspector returns exactly that list, and the binding generator is invoked
with it plus the implicit include directories (as `-I`) and the target triple,
restricting emitted declarations to the wrapper prefix pattern `wrapped_.*`. -/
theorem claim_C6_compile_arguments (incl defs impl : List (List Char))
    (target entry_path entry : List Char) (entities : List Entity)
    (targets : List AltTarget) (r : List Char × List AltOutcome × List (List Char))
    (h : write_wrapper_function impl incl defs entities entry targets = some r) :
    build_clang_arguments incl defs impl =
      incl.map (fun p => str "-I" ++ p) ++ defs.map (fun d => str "-D" ++ d) ++
        impl.map (fun p => str "-I" ++ p) ∧
    r.2.2 = build_clang_arguments incl defs impl ∧
    (generate_rust_binding target impl entry_path r.2.2).clang_args_acc =
      build_clang_arguments incl defs impl ++ impl.map (fun p => str "-I" ++ p) ++
        [str "--target=" ++ target] ∧
    (generate_rust_binding target impl entry_path r.2.2).allowed_functions =
      [str "wrapped_.*"] := by
  have hargs : r.2.2 = build_clang_arguments incl defs impl := by
    cases hc : collect_wrapper_code incl entities with
    | none => simp [write_wrapper_function, hc] at h
    | some pr =>
      obtain ⟨wrappers, ignored⟩ := pr
      simp only [write_wrapper_function, hc, Option.bind_eq_bind, Option.some_bind,
        Option.some.injEq] at h
      rw [← h]
  refine ⟨rfl, hargs, ?_, ?_⟩
  · rw [hargs]
    simp [generate_rust_binding, BindgenBuilder.clang_args, BindgenBuilder.clang_arg,
      BindgenBuilder.whitelist_function, BindgenBuilder.empty, BindgenBuilder.header,
      BindgenBuilder.use_core, BindgenBuilder.with_ctypes, BindgenBuilder.detect_include_paths]
  · simp [generate_rust_binding, BindgenBuilder.clang_args, BindgenBuilder.clang_arg,
      BindgenBuilder.whitelist_function, BindgenBuilder.empty, BindgenBuilder.header,
      BindgenBuilder.use_core, BindgenBuilder.with_ctypes, BindgenBuilder.detect_include_paths]

/-- Witness for C6 at one explicit directory, one definition, one implicit
directory, the embedded target triple, and an empty entity list. -/
theorem claim_C6_witness :
    build_clang_arguments [str "/inc"] [str "DEF"] [str "/imp"] =
      [str "/inc"].map (fun p => str "-I" ++ p) ++ [str "DEF"].map (fun d => str "-D" ++ d) ++
        [str "/imp"].map (fun p => str "-I" ++ p) ∧
    (str "x" ++ (GENERATED_CODE_MARKER ++ []), ([] : List AltOutcome),
        build_clang_arguments [str "/inc"] [str "DEF"] [str "/imp"]).2.2 =
      build_clang_arguments [str "/inc"] [str "DEF"] [str "/imp"] ∧
    (generate_rust_binding (str "thumbv6m-none-eabi") [str "/imp"] (str "/out/entry.c")
        (str "x" ++ (GENERATED_CODE_MARKER ++ []), ([] : List AltOutcome),
          build_clang_arguments [str "/inc"] [str "DEF"] [str "/imp"]).2.2).clang_args_acc =
      build_clang_arguments [str "/inc"] [str "DEF"] [str "/imp"] ++
        [str "/imp"].map (fun p => str "-I" ++ p) ++
        [str "--target=" ++ str "thumbv6m-none-eabi"] ∧
    (generate_rust_binding (str "thumbv6m-none-eabi") [str "/imp"] (str "/out/entry.c")
        (str "x" ++ (GENERATED_CODE_MARKER ++ []), ([] : List AltOutcome),
          build_clang_arguments [str "/inc"] [str "DEF"] [str "/imp"]).2.2).allowed_functions =
      [str "wrapped_.*"] :=
  claim_C6_compile_arguments [str "/inc"] [str "DEF"] [str "/imp"]
    (str "thumbv6m-none-eabi") (str "/out/entry.c") (str "x") [] []
    (str "x" ++ (GENERATED_CODE_MARKER ++ []), ([] : List AltOutcome),
      build_clang_arguments [str "/inc"] [str "DEF"] [str "/imp"]) rfl

/-- Claim C7: an I/O failure on one alternate propagation target only skips
that target — every other target in the colon-delimited list is still
processed with the same generated code, and the entry-point content and the
clang argument list handed to the rest of the pipeline are unchanged. -/
theorem claim_C7_alt_failures_isolated (impl incl defs : List (List Char))
    (entities : List Entity) (entry : List Char) (ts1 ts2 : List AltTarget) (t : AltTarget)
    (wrappers : List Char) (ignored : List Entity)
    (hcol : collect_wrapper_code incl entities = some (wrappers, ignored)) :
    write_wrapper_function impl incl defs entities entry (ts1 ++ t :: ts2) =
      some (entry ++ (GENERATED_CODE_MARKER ++ wrappers),
        ts1.map (process_alternative (GENERATED_CODE_MARKER ++ wrappers)) ++
          process_alternative (GENERATED_CODE_MARKER ++ wrappers) t ::
          ts2.map (process_alternative (GENERATED_CODE_MARKER ++ wrappers)),
        build_clang_arguments incl defs impl) ∧
    (t.readResult = none →
      process_alternative (GENERATED_CODE_MARKER ++ wrappers) t = AltOutcome.skipped) := by
  constructor
  · simp [write_wrapper_function, hcol]
  · intro hnone
    simp [process_alternative, hnone]

/-- Witness for C7: the middle target of three fails to open; the two targets
around it are still processed and the pipeline output is unchanged. -/
theorem claim_C7_witness :
    write_wrapper_function [] [] [] [] (str "e")
        ([⟨some (str "a"), true⟩] ++ (⟨none, true⟩ : AltTarget) :: [⟨some (str "b"), false⟩]) =
      some (str "e" ++ (GENERATED_CODE_MARKER ++ []),
        [AltTarget.mk (some (str "a")) true].map
            (process_alternative (GENERATED_CODE_MARKER ++ [])) ++
          process_alternative (GENERATED_CODE_MARKER ++ []) (AltTarget.mk none true) ::
          [AltTarget.mk (some (str "b")) false].map
            (process_alternative (GENERATED_CODE_MARKER ++ [])),
        build_clang_arguments [] [] []) ∧
    ((AltTarget.mk none true).readResult = none →
      process_alternative (GENERATED_CODE_MARKER ++ []) (AltTarget.mk none true) =
        AltOutcome.skipped) :=
  claim_C7_alt_failures_isolated [] [] [] [] (str "e")
    [AltTarget.mk (some (str "a")) true] [AltTarget.mk (some (str "b")) false]
    (AltTarget.mk none true) [] [] rfl

/-- Claim C8: with the override variable set and the file readable, the entry
prefix is the override content truncated at the first marker occurrence (the
whole content when no marker occurs); with it unset the built-in default is
used; with it set but unreadable the pipeline aborts instead of falling back. -/
theorem claim_C8_entry_point (s d : List Char) :
    (∀ n, findSubstr GENERATED_CODE_MARKER s = some n →
      create_entry_point_content (some (some s)) (some d) = some (s.take n)) ∧
    (findSubstr GENERATED_CODE_MARKER s = none →
      create_entry_point_content (some (some s)) (some d) = some s) ∧
    create_entry_point_content none (some d) = some d ∧
    (∀ dflt, create_entry_point_content (some none) dflt = none) := by
  refine ⟨?_, ?_, rfl, fun _ => rfl⟩
  · intro n hn
    simp [create_entry_point_content, truncate_eq_take s n hn]
  · intro hn
    simp [create_entry_point_content, truncate_eq_self s hn]

/-- Witness for C8: an override file containing a hand-authored prefix of six
characters followed by the marker is truncated at index 6; a set-but-unreadable
override aborts. -/
theorem claim_C8_witness :
    create_entry_point_content
        (some (some (str "custom" ++ GENERATED_CODE_MARKER ++ str "old")))
        (some (str "default")) =
      some ((str "custom" ++ GENERATED_CODE_MARKER ++ str "old").take 6) ∧
    create_entry_point_content (some none) (some (str "default")) = none :=
  ⟨(claim_C8_entry_point (str "custom" ++ GENERATED_CODE_MARKER ++ str "old")
      (str "default")).1 6 (by decide),
   (claim_C8_entry_point (str "custom" ++ GENERATED_CODE_MARKER ++ str "old")
      (str "default")).2.2.2 (some (str "default"))⟩

theorem scan_to_header_split (pre : List (List Char)) (hl : List Char)
    (post : List (List Char))
    (hpre : ∀ l ∈ pre, trimChars l ≠ include_search_header)
    (hhl : trimChars hl = include_search_header) :
    scan_to_header (pre ++ hl :: post) = post := by
  induction pre with
  | nil => simp [scan_to_header, hhl]
  | cons x xs ih =>
    have hx : trimChars x ≠ include_search_header := hpre x (List.mem_cons_self x _)
    rw [List.cons_append, scan_to_header, if_neg hx]
    exact ih (fun l hm => hpre l (List.mem_cons_of_mem x hm))

theorem scan_to_header_absent (lines : List (List Char))
    (h : ∀ l ∈ lines, trimChars l ≠ include_search_header) : scan_to_header lines = [] := by
  induction lines with
  | nil => rfl
  | cons x xs ih =>
    rw [scan_to_header, if_neg (h x (List.mem_cons_self x _))]
    exact ih (fun l hm => h l (List.mem_cons_of_mem x hm))

theorem collect_existing_eq (pathExists : List Char → Bool) (lines : List (List Char)) :
    collect_existing pathExists lines = (lines.map trimChars).takeWhile pathExists := by
  induction lines with
  | nil => rfl
  | cons l rest ih =>
    rw [List.map_cons, List.takeWhile_cons]
    cases hp : pathExists (trimChars l) with
    | false => simp [collect_existing, hp]
    | true => simp [collect_existing, hp, ih]

/-- Claim C9: the toolchain probe returns exactly the maximal run of (trimmed)
lines naming existing paths that immediately follow the first diagnostic line
whose trimmed text is the search-path header; the first non-existing-path line
terminates collection; when no header line occurs the result is empty; the
cross compiler is chosen exactly for the embedded triple. -/
theorem claim_C9_toolchain_probe (pathExists : List Char → Bool) (gcc_stderr hl : List Char)
    (pre post : List (List Char)) (target : List Char) :
    ((gcc_stderr.splitOn '\n' = pre ++ hl :: post) →
      (∀ l ∈ pre, trimChars l ≠ include_search_header) →
      trimChars hl = include_search_header →
      get_implicit_include_directories pathExists gcc_stderr =
        (post.map trimChars).takeWhile pathExists) ∧
    ((∀ l ∈ gcc_stderr.splitOn '\n', trimChars l ≠ include_search_header) →
      get_implicit_include_directories pathExists gcc_stderr = []) ∧
    gcc_command_for_target (str "thumbv6m-none-eabi") = str "arm-none-eabi-gcc" ∧
    (target ≠ str "thumbv6m-none-eabi" → gcc_command_for_target target = str "gcc") := by
  refine ⟨?_, ?_, by simp [gcc_command_for_target], ?_⟩
  · intro hsplit hpre hhl
    unfold get_implicit_include_directories
    rw [hsplit, scan_to_header_split pre hl post hpre hhl, collect_existing_eq]
  · intro habs
    unfold get_implicit_include_directories
    rw [scan_to_header_absent _ habs]
    rfl
  · intro hne
    simp [gcc_command_for_target, hne]

/-- Witness for C9 at a concrete diagnostic stream with one line before the
header, two candidate paths (the second non-existing) and a trailing remark:
the result is exactly the one existing path. -/
theorem claim_C9_witness :
    get_implicit_include_directories path_exists_fixture gcc_stderr_fixture =
      (([str " /usr/include", str " /opt/bad", str "End of search list."].map
        trimChars).takeWhile path_exists_fixture) ∧
    get_implicit_include_directories path_exists_fixture gcc_stderr_fixture =
      [str "/usr/include"] :=
  ⟨(claim_C9_toolchain_probe path_exists_fixture gcc_stderr_fixture
      (str "#include <...> search starts here:")
      [str "ignoring nonexistent directory \"/x\""]
      [str " /usr/include", str " /opt/bad", str "End of search list."]
      (str "x86_64-unknown-linux-gnu")).1 (by decide) (by decide) (by decide),
   by decide⟩

/-- Claim C10 (amended): wrapper synthesis aborts when any parameter
declaration of an in-scope function lacks a name, rather than skipping the
parameter or the function; and when every parameter is named and carries a type
display name, parameter extraction never aborts. -/
theorem claim_C10_named_parameters (cs : List Entity) :
    ((∃ c ∈ cs, c.get_kind = EntityKind.ParmDecl ∧ c.get_name = none) →
      extract_parameters cs = none) ∧
    ((∀ c ∈ cs, c.get_kind = EntityKind.ParmDecl → c.get_name ≠ none ∧ c.get_type ≠ none) →
      ∃ l, extract_parameters cs = some l) := by
  induction cs with
  | nil =>
    constructor
    · rintro ⟨c, hc, _⟩
      exact absurd hc (List.not_mem_nil c)
    · intro _
      exact ⟨[], rfl⟩
  | cons c rest ih =>
    constructor
    · rintro ⟨x, hx, hkind, hname⟩
      rcases List.mem_cons.mp hx with rfl | hx'
      · simp [extract_parameters, hkind, hname]
      · have hrec : extract_parameters rest = none := ih.1 ⟨x, hx', hkind, hname⟩
        by_cases hk : c.get_kind = EntityKind.ParmDecl
        · cases hcn : c.get_name with
          | none => simp [extract_parameters, hk, hcn]
          | some nm =>
            cases hct : c.get_type with
            | none => simp [extract_parameters, hk, hcn, hct]
            | some ty => simp [extract_parameters, hk, hcn, hct, hrec]
        · simp [extract_parameters, hk, hrec]
    · intro h
      by_cases hk : c.get_kind = EntityKind.ParmDecl
      · obtain ⟨hn, ht⟩ := h c (List.mem_cons_self c rest) hk
        cases hcn : c.get_name with
        | none => exact absurd hcn hn
        | some nm =>
          cases hct : c.get_type with
          | none => exact absurd hct ht
          | some ty =>
            obtain ⟨l, hl⟩ := ih.2 (fun z hz hzk => h z (List.mem_cons_of_mem c hz) hzk)
            exact ⟨(ty ++ str " " ++ nm, nm) :: l,
              by simp [extract_parameters, hk, hcn, hct, hl]⟩
      · obtain ⟨l, hl⟩ := ih.2 (fun z hz hzk => h z (List.mem_cons_of_mem c hz) hzk)
        exact ⟨l, by simp [extract_parameters, hk, hl]⟩

/-- Counterexample to C10 as stated: a function whose single parameter is named
but has no type display name satisfies the claim's precondition (all parameters
named), yet parameter extraction and wrapper synthesis abort on the type
`unwrap`. -/
theorem claim_C10_counterexample :
    (∀ c ∈ entity_untyped.get_children, c.get_kind = EntityKind.ParmDecl →
      c.get_name ≠ none) ∧
    extract_parameters entity_untyped.get_children = none ∧
    create_wrapper_function entity_untyped = none := by decide

/-- Witness for C10 at the fully named and typed declaration
`int add(int a, int b)`: extraction succeeds. -/
theorem claim_C10_witness :
    ∃ l, extract_parameters entity_add.get_children = some l :=
  (claim_C10_named_parameters entity_add.get_children).2 (by decide)
